import Mathlib

/-!
Shallow embedding of the metadata-resolution core of `src/main.py` (ytdl-gui).

Python strings are modelled as `List Char`; Python `str` truthiness is
non-emptiness; CPython floats arising from similarity ratios and durations are
modelled as exact rationals (`ℚ`); byte strings are `List UInt8`; a raised
exception is an `Except.error`.  All definitions are executable.
-/

namespace YtdlGui

/-! ## Python string primitives -/

/-- Python whitespace class (`\s`, `str.strip`, `str.split`): space, tab,
newline, carriage return, vertical tab, form feed. -/
def pyIsSpace (c : Char) : Bool :=
  c = ' ' || c = '\t' || c = '\n' || c = '\r' || c = Char.ofNat 11 || c = Char.ofNat 12

/-- ASCII lowering, as `str.lower` acts on the ASCII range. -/
def lowerChar (c : Char) : Char :=
  if 'A' ≤ c && c ≤ 'Z' then Char.ofNat (c.toNat + 32) else c

/-- ASCII uppering, as `str.upper` acts on the ASCII range. -/
def upperChar (c : Char) : Char :=
  if 'a' ≤ c && c ≤ 'z' then Char.ofNat (c.toNat - 32) else c

def toLowerL (l : List Char) : List Char := l.map lowerChar

def toUpperL (l : List Char) : List Char := l.map upperChar

/-- `str.lstrip` with an arbitrary character class. -/
def lstripBy (p : Char → Bool) (l : List Char) : List Char := l.dropWhile p

/-- `str.rstrip` with an arbitrary character class. -/
def rstripBy (p : Char → Bool) (l : List Char) : List Char :=
  (l.reverse.dropWhile p).reverse

/-- `str.strip` with an arbitrary character class. -/
def stripBy (p : Char → Bool) (l : List Char) : List Char := rstripBy p (lstripBy p l)

/-- Python `str.strip()` (default whitespace). -/
def pyStrip (l : List Char) : List Char := stripBy pyIsSpace l

/-- Python `str.rstrip()` (default whitespace). -/
def pyRstrip (l : List Char) : List Char := rstripBy pyIsSpace l

/-- Python substring containment, `needle in haystack`. -/
def containsSub (nd : List Char) : List Char → Bool
  | [] => nd.isEmpty
  | c :: rest => nd.isPrefixOf (c :: rest) || containsSub nd rest

/-- Python `str.rfind(sub)`: index of the rightmost occurrence, if any. -/
def rfindSub (sub l : List Char) : Option Nat :=
  ((List.range (l.length + 1)).filter (fun i => sub.isPrefixOf (l.drop i))).getLast?

/-- Rightmost occurrence of a single character (`str.rfind` on a 1-char string). -/
def rfindChar (c : Char) (l : List Char) : Option Nat := rfindSub [c] l

/-- `re.sub(r"\s+", " ", s)`: every maximal whitespace run becomes one space.
The flag records whether the previous character was part of a whitespace run. -/
def collapseWsAux : Bool → List Char → List Char
  | _, [] => []
  | prevWs, c :: rest =>
    if pyIsSpace c then
      (if prevWs then [] else [' ']) ++ collapseWsAux true rest
    else
      c :: collapseWsAux false rest

def collapseWs (l : List Char) : List Char := collapseWsAux false l

/-- Character class of `re.findall(r"[a-z0-9']+", ...)` (applied after lowering). -/
def isWordChar (c : Char) : Bool :=
  ('a' ≤ c && c ≤ 'z') || ('0' ≤ c && c ≤ '9') || c = Char.ofNat 39

/-- Accumulating splitter for `re.findall(r"[a-z0-9']+", s)`: maximal runs of
word characters.  `cur` holds the current run, reversed. -/
def tokenizeAux : List Char → List Char → List (List Char)
  | [], cur => if cur.isEmpty then [] else [cur.reverse]
  | c :: rest, cur =>
    if isWordChar c then tokenizeAux rest (c :: cur)
    else if cur.isEmpty then tokenizeAux rest [] else cur.reverse :: tokenizeAux rest []

def wordTokens (l : List Char) : List (List Char) := tokenizeAux l []

/-- Python `str.split()` (no argument): maximal runs of non-whitespace. -/
def splitWsAux : List Char → List Char → List (List Char)
  | [], cur => if cur.isEmpty then [] else [cur.reverse]
  | c :: rest, cur =>
    if pyIsSpace c then
      if cur.isEmpty then splitWsAux rest [] else cur.reverse :: splitWsAux rest []
    else splitWsAux rest (c :: cur)

def splitWs (l : List Char) : List (List Char) := splitWsAux l []

/-! ## Filename sanitization (`sanitize_filename`, src/main.py:132-143) -/

/-- The filesystem-invalid character class `[<>:"/\\|?*]` of `_INVALID_FS_RE`. -/
def isInvalidFsChar (c : Char) : Bool :=
  c = '<' || c = '>' || c = ':' || c = Char.ofNat 34 || c = '/' ||
  c = '\\' || c = '|' || c = '?' || c = '*'

/-- `_INVALID_FS_RE.sub("_", s)`: each maximal run of invalid characters becomes
one underscore.  The flag records whether the previous character was invalid. -/
def subInvalidAux : Bool → List Char → List Char
  | _, [] => []
  | prev, c :: rest =>
    if isInvalidFsChar c then
      (if prev then [] else ['_']) ++ subInvalidAux true rest
    else c :: subInvalidAux false rest

def DOT_SPACE : List Char := ". ".data

/-- Lines 136-138 of `sanitize_filename`: strip, replace invalid runs,
collapse whitespace, strip, then `strip(". ")`. -/
def sfCore (name : List Char) : List Char :=
  stripBy (fun c => DOT_SPACE.contains c)
    (pyStrip (collapseWs (subInvalidAux false (pyStrip name))))

/-- `sanitize_filename(name, max_len)` from src/main.py:135-143. -/
def sanitizeFilename (name : List Char) (maxLen : Nat) : List Char :=
  let s3 := if (sfCore name).isEmpty then "audio".data else sfCore name
  if s3.length > maxLen then pyRstrip (s3.take maxLen) else s3

/-! ## Album-suffix normalization (`clean_album_name`, src/main.py:147-151) -/

/-- The dash alternatives `[-–—]` used by `ALBUM_SUFFIX_RE` and the title
splitter. -/
def isDashChar (c : Char) : Bool :=
  c = '-' || c = Char.ofNat 8211 || c = Char.ofNat 8212

/-- Matcher for `ALBUM_SUFFIX_RE = r"\s*[-–—]\s*(single|ep|album)\s*$"`
(IGNORECASE): working on the reversed string we skip trailing whitespace,
require one of the three words case-insensitively, skip whitespace, require a
dash, and drop the whitespace run preceding the dash (the greedy leading
`\s*` of the leftmost match).  Returns the string with the match removed. -/
def albumSuffixStripped (l : List Char) : Option (List Char) :=
  let r := l.reverse.dropWhile pyIsSpace
  let tryW : List Char → Option (List Char) := fun w =>
    let wr := w.reverse
    if toLowerL (r.take wr.length) = wr then
      match (r.drop wr.length).dropWhile pyIsSpace with
      | c :: r4 =>
        if isDashChar c then some ((r4.dropWhile pyIsSpace).reverse) else none
      | [] => none
    else none
  match tryW "single".data with
  | some res => some res
  | none =>
    match tryW "ep".data with
    | some res => some res
    | none => tryW "album".data

/-- `clean_album_name(name)`: strip the suffix regex, then `str.strip()`. -/
def cleanAlbumName (l : List Char) : List Char :=
  pyStrip (match albumSuffixStripped l with | some res => res | none => l)

def cleanAlbumNameS (s : String) : String := ⟨cleanAlbumName s.data⟩

/-! ## Marketing vocabulary (src/main.py:154-184) -/

def MARKETING_BAD_WORDS : List (List Char) :=
  ["official", "lyrics", "audio", "video", "music video", "visualizer",
   "free download", "4k", "4k remaster", "4k remastered"].map String.data

/-- `sorted(_MARKETING_BAD_WORDS, key=len, reverse=True)`: Python's sort is
stable, so words of equal length keep their original relative order.  Lengths
are 13,13,11,11,10,8,6,5,5,2. -/
def MARKETING_BAD_WORDS_SORTED : List (List Char) :=
  ["free download", "4k remastered", "music video", "4k remaster",
   "visualizer", "official", "lyrics", "audio", "video", "4k"].map String.data

def MARKETING_KEEP_IF_REMIX_WORDS : List (List Char) :=
  ["remix", "mix", "edit", "bootleg", "rework", "remaster", "remastered"].map String.data

def GENERIC_CONNECTORS : List (List Char) :=
  ["and", "with", "feat", "featuring", "ft", "vs", "x"].map String.data

/-- `_BAD_TOKENS`: the whitespace-split tokens of every bad phrase (a set in
the source; duplicates are harmless for membership tests). -/
def BAD_TOKENS : List (List Char) :=
  (MARKETING_BAD_WORDS.map splitWs).foldr (· ++ ·) []

/-- `_segment_is_marketing(seg)` from src/main.py:176-184. -/
def segmentIsMarketing (seg : List Char) : Bool :=
  let segL := toLowerL seg
  if MARKETING_KEEP_IF_REMIX_WORDS.any (fun w => containsSub w segL) then false
  else
    let tokens := wordTokens segL
    let meaningful := tokens.filter (fun t => !(GENERIC_CONNECTORS.contains t))
    if meaningful.isEmpty then false
    else meaningful.all (fun t => BAD_TOKENS.contains t)

/-! ## Marketing stripper (`_strip_trailing_marketing`, src/main.py:187-231) -/

/-- One iteration of the trailing-bracket `while` loop (src/main.py:192-204).
`none` means the loop exits (any of the three `break`s or the loop condition
failing); `some s2` means one bracketed segment was stripped and the loop
continues with `s2`. -/
def bracketInside (s : List Char) (oi : Nat) : List Char :=
  toLowerL (pyStrip ((s.drop (oi + 1)).take (s.length - 1 - (oi + 1))))

def bracketStep (s : List Char) : Option (List Char) :=
  if s.getLast? = some ')' || s.getLast? = some ']' then
    match rfindChar (if s.getLast? = some ')' then '(' else '[') s with
    | none => none
    | some oi =>
      if MARKETING_KEEP_IF_REMIX_WORDS.any (fun w => containsSub w (bracketInside s oi)) then
        none
      else if MARKETING_BAD_WORDS.any (fun w => containsSub w (bracketInside s oi)) then
        some (pyRstrip (s.take oi))
      else none
  else none

/-- The bracket `while` loop, with fuel; each step strictly shortens the
string, so `s.length + 1` fuel always suffices. -/
def bracketLoop : Nat → List Char → List Char
  | 0, s => s
  | fuel + 1, s =>
    match bracketStep s with
    | some s2 => bracketLoop fuel s2
    | none => s

def SEPS : List (List Char) := [" - ", " | ", " • "].map String.data

/-- The separator-segment `for` loop (src/main.py:206-214): `lowered` is
computed once from `s`; the first separator whose rightmost occurrence has an
all-marketing right side triggers the strip and the `break`. -/
def sepTry (s lowered : List Char) : List (List Char) → List Char
  | [] => s
  | sep :: rest =>
    match rfindSub sep lowered with
    | none => sepTry s lowered rest
    | some idx =>
      if segmentIsMarketing (pyStrip (s.drop (idx + sep.length))) then pyRstrip (s.take idx)
      else sepTry s lowered rest

def sepStage (s : List Char) : List Char := sepTry s (toLowerL s) SEPS

/-- The boundary character class `" []()-•|"` of src/main.py:223. -/
def BOUNDARY_CHARS : List Char := " []()-•|".data

/-- One pass of the inner `for` of the phrase loop (src/main.py:219-226):
returns `some` of the trimmed string for the first phrase that is a suffix at
a token boundary, `none` when no phrase fires (`trimmed` stays false). -/
def phrasePass (s : List Char) : List (List Char) → Option (List Char)
  | [] => none
  | p :: rest =>
    if p.isSuffixOf (toLowerL s) then
      if s.length - p.length = 0 then some (pyRstrip (s.take (s.length - p.length)))
      else
        match s[s.length - p.length - 1]? with
        | some c =>
          if BOUNDARY_CHARS.contains c then some (pyRstrip (s.take (s.length - p.length)))
          else phrasePass s rest
        | none => phrasePass s rest
    else phrasePass s rest

/-- The outer `while True` phrase loop, with fuel. -/
def phraseLoop : Nat → List Char → List Char
  | 0, s => s
  | fuel + 1, s =>
    match phrasePass s MARKETING_BAD_WORDS_SORTED with
    | some s2 => phraseLoop fuel s2
    | none => s

/-- The trailing-junk class of `re.sub(r"[\-\|\•\s]+$", "", s)`. -/
def isTrailingJunk (c : Char) : Bool :=
  c = '-' || c = '|' || c = Char.ofNat 8226 || pyIsSpace c

/-- `_strip_trailing_marketing(title)` from src/main.py:187-231. -/
def stripTrailingMarketing (title : List Char) : List Char :=
  let s := pyStrip title
  if s.isEmpty then s
  else
    let s1 := bracketLoop (s.length + 1) s
    let s2 := sepStage s1
    let s3 := phraseLoop (s2.length + 1) s2
    pyStrip (rstripBy isTrailingJunk s3)

/-! ## Title parsing (`parse_youtube_title`, src/main.py:234-259) -/

/-- Leftmost match of the split pattern `r"\s[-–—]\s"`: one whitespace
character, one dash, one whitespace character. -/
def findSepIdxAux (i : Nat) : List Char → Option Nat
  | c1 :: c2 :: c3 :: rest =>
    if pyIsSpace c1 && isDashChar c2 && pyIsSpace c3 then some i
    else findSepIdxAux (i + 1) (c2 :: c3 :: rest)
  | _ => none

def findSepIdx (l : List Char) : Option Nat := findSepIdxAux 0 l

/-- The strip class `" -–—"` applied to the artist part. -/
def DASH_SPACE_STRIP : List Char := " -–—".data

/-- The bracket/quote unwrapping of the title part (src/main.py:250-257).
`re.match(r"^\[(.+)\]$", t)` matches (given that `t`, being
whitespace-collapsed, contains no newline) exactly when `t` is `[`, a
non-empty newline-free middle, then `]`; the quote branch strips one layer of
matching double or single quotes (`t[1:-1]`). -/
def unwrapTitlePart (tp : List Char) : List Char :=
  let mid := (tp.drop 1).take (tp.length - 2)
  let tp1 :=
    if tp.head? = some '[' && tp.getLast? = some ']' && decide (3 ≤ tp.length) &&
        mid.all (fun d => d ≠ '\n') then
      pyStrip mid
    else tp
  let mid1 := (tp1.drop 1).take (tp1.length - 2)
  let dq := Char.ofNat 34
  let sq := Char.ofNat 39
  if (tp1.head? = some dq && tp1.getLast? = some dq) ||
      (tp1.head? = some sq && tp1.getLast? = some sq) then
    pyStrip mid1
  else tp1

/-- `parse_youtube_title(raw_title)` from src/main.py:234-259; returns the
(artist, title) pair. -/
def parseYoutubeTitle (raw : List Char) : List Char × List Char :=
  if raw.isEmpty then ([], [])
  else
    let s := pyStrip (collapseWs (stripTrailingMarketing raw))
    if s.isEmpty then ([], [])
    else
      match findSepIdx s with
      | some i =>
        let artist := stripBy (fun c => DASH_SPACE_STRIP.contains c) (s.take i)
        let tp := pyStrip (s.drop (i + 3))
        (artist, pyStrip (unwrapTitlePart tp))
      | none => ([], pyStrip (unwrapTitlePart s))

/-! ## Canonical record and `_norm` (src/main.py:437-461) -/

/-- The `TrackMeta` dataclass of src/main.py:437-453 (all-empty defaults). -/
structure TrackMeta where
  title : String := ""
  artist : String := ""
  album : String := ""
  album_artist : String := ""
  year : String := ""
  genre : String := ""
  track_number : String := ""
  track_total : String := ""
  disc_number : String := ""
  disc_total : String := ""
  isrc : String := ""
  itunes_track_id : String := ""
  artwork_url : String := ""
  artwork_jpeg : List UInt8 := []
  comment : String := ""
  source : String := ""
deriving DecidableEq, Repr

/-- The punctuation class of `_norm`: `[\(\)\[\]\{\}\-–—_:;,.!/?\\|]`. -/
def isNormPunct (c : Char) : Bool :=
  c = '(' || c = ')' || c = '[' || c = ']' || c = Char.ofNat 123 || c = Char.ofNat 125 ||
  c = '-' || c = Char.ofNat 8211 || c = Char.ofNat 8212 || c = '_' || c = ':' ||
  c = ';' || c = ',' || c = '.' || c = '!' || c = '/' || c = '?' || c = '\\' || c = '|'

/-- `re.sub(r"[...]+", " ", s)` for the `_norm` punctuation class: each maximal
run becomes one space. -/
def subPunctAux : Bool → List Char → List Char
  | _, [] => []
  | prev, c :: rest =>
    if isNormPunct c then (if prev then [] else [' ']) ++ subPunctAux true rest
    else c :: subPunctAux false rest

/-- `_norm(s)` from src/main.py:457-461: lower, replace punctuation runs by a
space, collapse whitespace, strip. -/
def norm (s : List Char) : List Char :=
  pyStrip (collapseWs (subPunctAux false (toLowerL s)))

/-! ## Scorer (`token_jaccard`, `pick_best_itunes_result`, src/main.py:557-603) -/

/-- `token_jaccard(a, b)` from src/main.py:557-564: Jaccard index of the
normalized token sets (the float division is modelled exactly in `ℚ`). -/
def tokenJaccard (a b : List Char) : ℚ :=
  let ta := (splitWs (norm a)).dedup
  let tb := (splitWs (norm b)).dedup
  if ta.isEmpty && tb.isEmpty then 1
  else if ta.isEmpty || tb.isEmpty then 0
  else
    let inter := ta.filter (fun t => tb.contains t)
    let union := ta ++ tb.filter (fun t => !(ta.contains t))
    (inter.length : ℚ) / ((max 1 union.length : ℕ) : ℚ)

/-- The similarity penalty term of the candidate score
(src/main.py:594-597): −8 when `title_sim < 0.20 and wt`, −3 when
`title_sim < 0.35 and wt`, else 0. -/
def titleSimPenalty (want_title trackName : String) : Int :=
  let wt := norm want_title.data
  let ts := tokenJaccard want_title.data trackName.data
  if ts < 1/5 ∧ wt ≠ [] then -8
  else if ts < 7/20 ∧ wt ≠ [] then -3
  else 0

/-- The per-item score of `pick_best_itunes_result` (src/main.py:574-597) for
a candidate with the given `artistName`, `trackName` and `kind` fields. -/
def scoreItunesItem (artistName trackName kind : String)
    (want_artist want_title : String) : Int :=
  let wa := norm want_artist.data
  let wt := norm want_title.data
  let a := norm artistName.data
  let t := norm trackName.data
  (if wt ≠ [] ∧ containsSub wt t then 6 else 0)
    + (if wa ≠ [] ∧ containsSub wa a then 6 else 0)
    + (if wt ≠ [] ∧ t = wt then 3 else 0)
    + (if wa ≠ [] ∧ a = wa then 3 else 0)
    + (if kind = "song" then 1 else 0)
    + (if containsSub "karaoke".data t then -2 else 0)
    + titleSimPenalty want_title trackName

/-! ## Fusion engine (`merge_meta`, src/main.py:1163-1201) -/

/-- One field of the `merge_meta` loop (src/main.py:1181-1193): `strong`
marks the "upgradeable" fields `album, year, genre, itunes_track_id,
artwork_url, isrc`. -/
def mergeField (a b : String) (pref strong : Bool) : String :=
  if pref then
    if b ≠ "" ∧ a = "" then b
    else if b ≠ "" ∧ a ≠ "" ∧ strong then b
    else a
  else
    if a = "" ∧ b ≠ "" then b else a

/-- `merge_meta(base, incoming, prefer_incoming)` from src/main.py:1163-1201,
with the field loop unrolled.  `artwork_jpeg` is copied only into an empty
base (src/main.py:1195-1196, the loop never touches it); the merged album is
then normalized by `clean_album_name` and an empty album-artist defaults to
the merged artist (src/main.py:1198-1200); `source` is never merged. -/
def mergeMeta (base incoming : TrackMeta) (pref : Bool) : TrackMeta :=
  let art := mergeField base.artist incoming.artist pref false
  let aa0 := mergeField base.album_artist incoming.album_artist pref false
  { title := mergeField base.title incoming.title pref false
    artist := art
    album := cleanAlbumNameS (mergeField base.album incoming.album pref true)
    album_artist := if aa0 = "" then art else aa0
    year := mergeField base.year incoming.year pref true
    genre := mergeField base.genre incoming.genre pref true
    track_number := mergeField base.track_number incoming.track_number pref false
    track_total := mergeField base.track_total incoming.track_total pref false
    disc_number := mergeField base.disc_number incoming.disc_number pref false
    disc_total := mergeField base.disc_total incoming.disc_total pref false
    isrc := mergeField base.isrc incoming.isrc pref true
    itunes_track_id := mergeField base.itunes_track_id incoming.itunes_track_id pref true
    artwork_url := mergeField base.artwork_url incoming.artwork_url pref true
    artwork_jpeg :=
      if incoming.artwork_jpeg ≠ [] ∧ base.artwork_jpeg = [] then incoming.artwork_jpeg
      else base.artwork_jpeg
    comment := mergeField base.comment incoming.comment pref false
    source := base.source }

/-! ## Matcher (`meta_match`, src/main.py:1342-1352) -/

/-- `isrc.strip().upper()` as used in the strong-identifier check. -/
def upperStripS (s : String) : List Char := toUpperL (pyStrip s.data)

/-- `meta_match(a, b)` from src/main.py:1342-1352. -/
def metaMatch (a b : TrackMeta) : Bool :=
  if a.isrc ≠ "" ∧ b.isrc ≠ "" ∧ upperStripS a.isrc = upperStripS b.isrc then true
  else if a.itunes_track_id ≠ "" ∧ b.itunes_track_id ≠ "" ∧
      a.itunes_track_id = b.itunes_track_id then true
  else
    let ts := tokenJaccard a.title.data b.title.data
    let asim :=
      if a.artist ≠ "" ∧ b.artist ≠ "" then tokenJaccard a.artist.data b.artist.data
      else (6 : ℚ)/10
    decide (ts ≥ 62/100 ∧ asim ≥ 55/100)

/-- Modelled from the claim wording of C4: the recording codes are compared
"identical up to letter case" only (no whitespace stripping); otherwise the
similarity test with the 0.6 artist default.  This is the spec-side
definition, for comparison against `metaMatch`. -/
def specMatchesC4 (a b : TrackMeta) : Bool :=
  if (a.isrc ≠ "" ∧ b.isrc ≠ "" ∧ toLowerL a.isrc.data = toLowerL b.isrc.data) ∨
      (a.itunes_track_id ≠ "" ∧ b.itunes_track_id ≠ "" ∧
        a.itunes_track_id = b.itunes_track_id) then true
  else
    let ts := tokenJaccard a.title.data b.title.data
    let asim :=
      if a.artist = "" ∨ b.artist = "" then (6 : ℚ)/10
      else tokenJaccard a.artist.data b.artist.data
    decide (ts ≥ 62/100 ∧ asim ≥ 55/100)

/-- Modelled from the amended claim wording of C4: as `specMatchesC4` but the
recording codes are compared up to letter case and surrounding whitespace. -/
def specMatchesC4Amended (a b : TrackMeta) : Bool :=
  if (a.isrc ≠ "" ∧ b.isrc ≠ "" ∧ toUpperL (pyStrip a.isrc.data) = toUpperL (pyStrip b.isrc.data)) ∨
      (a.itunes_track_id ≠ "" ∧ b.itunes_track_id ≠ "" ∧
        a.itunes_track_id = b.itunes_track_id) then true
  else
    let ts := tokenJaccard a.title.data b.title.data
    let asim :=
      if a.artist = "" ∨ b.artist = "" then (6 : ℚ)/10
      else tokenJaccard a.artist.data b.artist.data
    decide (ts ≥ 62/100 ∧ asim ≥ 55/100)

/-! ## Fingerprint voter (`shazam_best_guess_from_wav`, src/main.py:1003-1061)

The audio decoding and the recognition calls are external; the voter is
modelled over the list of per-slice recognition results, each reduced to its
`key_for` string and whether the captured track carries a non-empty ISRC, in
arrival order. -/

/-- The candidate-offset computation of src/main.py:1008-1019 (the float
constants 0.40 and 0.70 are modelled as the rationals 4/10 and 7/10). -/
def shazamOffsets (duration : ℚ) : List ℚ :=
  let maxStart := max 0 (duration - 10 - 1/2)
  let cands := [max 0 (min maxStart 8),
                max 0 (min maxStart (duration * (4/10))),
                max 0 (min maxStart (duration * (7/10)))]
  (cands.foldl (fun offs t =>
    if offs.isEmpty || offs.all (fun o => |t - o| > 5) then offs ++ [t] else offs) []).take 3

/-- `key_for(track)` from src/main.py:1024-1025. -/
def shazamKeyFor (title subtitle : List Char) : List Char :=
  stripBy (fun c => c = ' ' || c = Char.ofNat 8212) (norm title ++ " — ".data ++ norm subtitle)

/-- One step of the voting loop (src/main.py:1049-1050): `votes[k] += 1` and
`tracks.setdefault(k, tr)`, kept as one insertion-ordered association list of
(key, vote count, ISRC-flag of the first captured track). -/
def insertVote (acc : List (String × Nat × Bool)) (k : String) (i : Bool) :
    List (String × Nat × Bool) :=
  match acc with
  | [] => [(k, 1, i)]
  | (k2, c, f) :: rest =>
    if k2 = k then (k2, c + 1, f) :: rest else (k2, c, f) :: insertVote rest k i

/-- The voting loop folded over the recognition results; a key whose
`k.strip()` is empty is skipped (src/main.py:1047-1048). -/
def tallyFold (acc : List (String × Nat × Bool)) (rs : List (String × Bool)) :
    List (String × Nat × Bool) :=
  rs.foldl (fun acc p => if (pyStrip p.1.data).isEmpty then acc else insertVote acc p.1 p.2) acc

def tallyVotes (rs : List (String × Bool)) : List (String × Nat × Bool) :=
  tallyFold [] rs

/-- Strict comparison under the sort key `(votes, has_isrc)` of
src/main.py:1056. -/
def voteBetter (cand best : String × Nat × Bool) : Bool :=
  best.2.1 < cand.2.1 || (cand.2.1 = best.2.1 && cand.2.2 && !best.2.2)

/-- `items.sort(key=..., reverse=True); items[0][0]` (src/main.py:1055-1057):
Python's sort is stable, so the head of the reverse-sorted list is the first
entry, in insertion order, whose key `(votes, has_isrc)` is maximal; `none`
when no slice produced a usable answer (src/main.py:1052-1053). -/
def shazamWinner (rs : List (String × Bool)) : Option String :=
  match tallyVotes rs with
  | [] => none
  | e :: es =>
    some ((es.foldl (fun best cand => if voteBetter cand best then cand else best) e).1)

/-- `shazam_best_guess_from_wav`, reduced to its duration precondition
(src/main.py:1004-1006, `raise AppError(...)` becomes `Except.error`) and the
vote (the recognition results are a parameter). -/
def shazamBestGuess (duration : ℚ) (rs : List (String × Bool)) :
    Except String (Option String) :=
  if duration ≤ 12 then Except.error "Audio is too short to recognize reliably."
  else Except.ok (shazamWinner rs)

/-! ## Review coordinator (src/main.py:1610-1640) -/

/-- The review-coordination state of `PipelineWorker` (src/main.py:1610-1617):
whether `_review_event` is a live `threading.Event` (not `None`), whether that
event has been signalled, `_review_selected_index`, `_review_request_id`. -/
structure ReviewState where
  eventActive : Bool
  eventSet : Bool
  selectedIndex : Int
  requestId : String
deriving DecidableEq, Repr

/-- A digit run parsed as a natural number (helper for `int(...)`). -/
def digitsToNat (l : List Char) : Option Nat :=
  if l.isEmpty then none
  else if l.all (fun c => '0' ≤ c && c ≤ '9') then
    some (l.foldl (fun n c => n * 10 + (c.toNat - 48)) 0)
  else none

/-- Python `int(s)` on the strings the UI sends (optional sign and ASCII
digits, surrounding whitespace allowed); `none` models the `ValueError`
caught at src/main.py:1638. -/
def pyParseIntOpt (s : String) : Option Int :=
  match pyStrip s.data with
  | '-' :: rest => (digitsToNat rest).map (fun n => -(n : Int))
  | '+' :: rest => (digitsToNat rest).map (fun n => (n : Int))
  | t => (digitsToNat t).map (fun n => (n : Int))

/-- `PipelineWorker.receive_review_result` (src/main.py:1629-1640): a
delivery whose identifier does not match the outstanding request (or arriving
when no event is outstanding) returns without touching any state; otherwise
the chosen index is parsed (defaulting to 0) and the event is signalled. -/
def receiveReviewResult (st : ReviewState) (requestId chosenKey : String) : ReviewState :=
  if st.eventActive = false ∨ requestId ≠ st.requestId then st
  else
    { st with selectedIndex := (pyParseIntOpt chosenKey).getD 0, eventSet := true }

/-! ## Measures used to specify the voter -/

/-- Number of recognition results carrying the given key. -/
def countKey (rs : List (String × Bool)) (k : String) : Nat :=
  match rs with
  | [] => 0
  | p :: rest => (if p.1 = k then 1 else 0) + countKey rest k

/-- ISRC flag of the first recognition result carrying the given key
(`tracks.setdefault` keeps the first captured track). -/
def firstFlagB (rs : List (String × Bool)) (k : String) : Bool :=
  match rs with
  | [] => false
  | p :: rest => if p.1 = k then p.2 else firstFlagB rest k

/-- Lookup of a key's (count, flag) entry in a tally list. -/
def tallyEntry (t : List (String × Nat × Bool)) (k : String) : Option (Nat × Bool) :=
  match t with
  | [] => none
  | e :: rest => if e.1 = k then some e.2 else tallyEntry rest k

/-- The keys of a tally list, in order. -/
def tkeys (t : List (String × Nat × Bool)) : List String := t.map (fun e => e.1)

/-- The head of the stable reverse-sorted list: the first entry whose sort key
is maximal, i.e. the fold that keeps the current best unless a later entry is
strictly better. -/
def pickBest (e : String × Nat × Bool) (es : List (String × Nat × Bool)) :
    String × Nat × Bool :=
  es.foldl (fun best cand => if voteBetter cand best then cand else best) e

/-! ## General lemmas about the string primitives -/

theorem rstripBy_sublist (p : Char → Bool) (l : List Char) :
    List.Sublist (rstripBy p l) l := by
  unfold rstripBy
  rw [← List.reverse_sublist, List.reverse_reverse]
  exact List.dropWhile_sublist p

theorem stripBy_sublist (p : Char → Bool) (l : List Char) :
    List.Sublist (stripBy p l) l :=
  (rstripBy_sublist p (l.dropWhile p)).trans (List.dropWhile_sublist p)

theorem pyStrip_sublist (l : List Char) : List.Sublist (pyStrip l) l := stripBy_sublist _ l

theorem pyRstrip_take_sublist (s : List Char) (n : Nat) :
    List.Sublist (pyRstrip (s.take n)) s :=
  (rstripBy_sublist _ _).trans (List.take_sublist n s)

theorem rstripBy_append_eq (p : Char → Bool) (l : List Char) :
    rstripBy p l ++ (l.reverse.takeWhile p).reverse = l := by
  unfold rstripBy
  rw [← List.reverse_append, List.takeWhile_append_dropWhile, List.reverse_reverse]

theorem rstripBy_eq_nil_iff (p : Char → Bool) (l : List Char) :
    rstripBy p l = [] ↔ ∀ c ∈ l, p c = true := by
  unfold rstripBy
  rw [List.reverse_eq_nil_iff, List.dropWhile_eq_nil_iff]
  constructor
  · intro h c hc
    exact h c (List.mem_reverse.mpr hc)
  · intro h c hc
    exact h c (List.mem_reverse.mp hc)

theorem dropWhile_head_false (p : Char → Bool) (l : List Char) (c : Char)
    (h : (l.dropWhile p).head? = some c) : p c = false := by
  induction l with
  | nil => simp at h
  | cons d rest ih =>
    rw [List.dropWhile_cons] at h
    by_cases hd : p d = true
    · rw [if_pos hd] at h
      exact ih h
    · rw [if_neg hd] at h
      simp at h
      subst h
      simpa using hd

theorem dropWhile_cons_false {p : Char → Bool} {c : Char} (l : List Char)
    (h : p c = false) : (c :: l).dropWhile p = c :: l := by
  rw [List.dropWhile_cons, h]
  simp

/-! ## Claim theorems -/

/-- Claim C6: a review response whose identifier differs from the identifier of
the outstanding request leaves the coordinator state unchanged — the stored
selected index is untouched and the event is not signalled. -/
theorem C6_stale_response_ignored (st : ReviewState) (rid key : String)
    (h : rid ≠ st.requestId) : receiveReviewResult st rid key = st := by
  unfold receiveReviewResult
  exact if_pos (Or.inr h)

/-- Witness for C6 at a concrete state and a mismatching identifier. -/
theorem C6_stale_response_ignored_witness :
    receiveReviewResult ⟨true, false, 0, "rev_1"⟩ "rev_2" "3" = ⟨true, false, 0, "rev_1"⟩ :=
  C6_stale_response_ignored ⟨true, false, 0, "rev_1"⟩ "rev_2" "3" (by decide)

/-- Claim C8: fingerprint voting fails with the named "audio too short" error
exactly when the duration is at most 12 seconds, and proceeds to the vote
(returning `ok`) exactly when the duration exceeds 12 seconds. -/
theorem C8_short_audio_gate (d : ℚ) (rs : List (String × Bool)) :
    (shazamBestGuess d rs = Except.error "Audio is too short to recognize reliably." ↔ d ≤ 12) ∧
    ((∃ w, shazamBestGuess d rs = Except.ok w) ↔ 12 < d) := by
  unfold shazamBestGuess
  split_ifs with h
  · refine ⟨⟨fun _ => h, fun _ => rfl⟩, ⟨fun hw => ?_, fun hlt => absurd hlt (not_lt.mpr h)⟩⟩
    obtain ⟨w, hw⟩ := hw
    simp at hw
  · refine ⟨⟨fun he => ?_, fun hle => absurd hle h⟩,
      ⟨fun _ => lt_of_not_le h, fun _ => ⟨shazamWinner rs, rfl⟩⟩⟩
    simp at he

/-- Witness for C8 at duration 5 (too short) and duration 30 (long enough). -/
theorem C8_short_audio_gate_witness :
    shazamBestGuess 5 [] = Except.error "Audio is too short to recognize reliably." ∧
    (∃ w, shazamBestGuess 30 [] = Except.ok w) :=
  ⟨(C8_short_audio_gate 5 []).1.mpr (by norm_num),
   (C8_short_audio_gate 30 []).2.mpr (by norm_num)⟩

/-- Claim C9: when the marketing-stripped, whitespace-collapsed title contains
no whitespace-dash-whitespace separator, the parser returns an empty artist. -/
theorem C9_no_dash_no_artist (raw : List Char)
    (h : findSepIdx (pyStrip (collapseWs (stripTrailingMarketing raw))) = none) :
    (parseYoutubeTitle raw).1 = [] := by
  unfold parseYoutubeTitle
  by_cases h0 : raw.isEmpty = true <;>
    by_cases h1 : (pyStrip (collapseWs (stripTrailingMarketing raw))).isEmpty = true <;>
      simp [h0, h1, h]

/-- Witness for C9 on a dash-free title. -/
theorem C9_no_dash_no_artist_witness :
    (parseYoutubeTitle "Hello World (Official Video)".data).1 = [] :=
  C9_no_dash_no_artist "Hello World (Official Video)".data (by decide)

/-- Counterexample to claim C1 as stated: with `prefer_incoming=false` and an
incoming record that contributes nothing, the non-empty base album
"Hits - Single" is still rewritten (to "Hits") by the album normalization at
the end of `merge_meta`. -/
theorem C1_counterexample :
    (mergeMeta { album := "Hits - Single" } {} false).album ≠
      ({ album := "Hits - Single" } : TrackMeta).album := by
  decide

/-- Counterexample to claim C3 as stated: `merge_meta` fills an empty base
comment from the incoming record, so the merged comment differs from the
base's. -/
theorem C3_counterexample :
    (mergeMeta {} { comment := "https://e.x" } false).comment ≠ ({} : TrackMeta).comment := by
  decide

/-- Counterexample to claim C2 as stated: `_strip_trailing_marketing` is not
idempotent.  On "Song [4k] - lyrics" one application strips the marketing
separator segment leaving "Song [4k]", and a second application then strips
the newly-trailing marketing bracket, leaving "Song". -/
theorem C2_counterexample :
    stripTrailingMarketing (stripTrailingMarketing "Song [4k] - lyrics".data) ≠
      stripTrailingMarketing "Song [4k] - lyrics".data := by
  decide

/-- Counterexample to claim C4 as stated: `meta_match` compares recording
codes after stripping surrounding whitespace (besides uppercasing), so the
records with codes " X" and "x" match even though the codes are not identical
up to letter case alone and the titles are dissimilar. -/
theorem C4_counterexample :
    metaMatch { isrc := " X", title := "aa" } { isrc := "x", title := "" } = true ∧
    specMatchesC4 { isrc := " X", title := "aa" } { isrc := "x", title := "" } = false := by
  constructor
  · rfl
  · unfold specMatchesC4
    rw [if_neg (by decide)]
    show (decide (tokenJaccard "aa".data "".data ≥ 62/100 ∧ (6 : ℚ)/10 ≥ 55/100)) = false
    rw [decide_eq_false_iff_not]
    rintro ⟨hts, -⟩
    rw [show tokenJaccard "aa".data "".data = 0 from rfl] at hts
    norm_num at hts

/-- Counterexample to claim C7 as stated: when the wanted title normalizes to
the empty string the title similarity against a non-empty candidate title is
0 (below 0.20), yet the score carries no −8 penalty because the penalty is
gated on a non-empty normalized wanted title. -/
theorem C7_counterexample :
    tokenJaccard "".data "hello".data < 1/5 ∧ titleSimPenalty "" "hello" = 0 := by
  constructor
  · rw [show tokenJaccard "".data "hello".data = 0 from rfl]
    norm_num
  · have hw : norm "".data = [] := rfl
    unfold titleSimPenalty
    show (if tokenJaccard "".data "hello".data < 1/5 ∧ norm "".data ≠ [] then (-8 : Int)
      else if tokenJaccard "".data "hello".data < 7/20 ∧ norm "".data ≠ [] then -3 else 0) = 0
    rw [if_neg (fun hc => hc.2 hw), if_neg (fun hc => hc.2 hw)]

/-- Counterexample to claim C10 as stated: an all-invalid input collapses to a
single underscore, not to the fallback name "audio". -/
theorem C10_counterexample :
    sanitizeFilename "*".data 180 = "_".data ∧ "_".data ≠ "audio".data := by
  constructor
  · decide
  · decide

/-- Claim C1 (amended): with `prefer_incoming=false`, `merge_meta` preserves
every non-empty base field except the album, which is returned as
`clean_album_name(base.album)`; artwork bytes and provenance are likewise
preserved. -/
theorem C1_amended (base incoming : TrackMeta) :
    (base.title ≠ "" → (mergeMeta base incoming false).title = base.title) ∧
    (base.artist ≠ "" → (mergeMeta base incoming false).artist = base.artist) ∧
    (base.album ≠ "" → (mergeMeta base incoming false).album = cleanAlbumNameS base.album) ∧
    (base.album_artist ≠ "" →
      (mergeMeta base incoming false).album_artist = base.album_artist) ∧
    (base.year ≠ "" → (mergeMeta base incoming false).year = base.year) ∧
    (base.genre ≠ "" → (mergeMeta base incoming false).genre = base.genre) ∧
    (base.track_number ≠ "" →
      (mergeMeta base incoming false).track_number = base.track_number) ∧
    (base.track_total ≠ "" →
      (mergeMeta base incoming false).track_total = base.track_total) ∧
    (base.disc_number ≠ "" →
      (mergeMeta base incoming false).disc_number = base.disc_number) ∧
    (base.disc_total ≠ "" →
      (mergeMeta base incoming false).disc_total = base.disc_total) ∧
    (base.isrc ≠ "" → (mergeMeta base incoming false).isrc = base.isrc) ∧
    (base.itunes_track_id ≠ "" →
      (mergeMeta base incoming false).itunes_track_id = base.itunes_track_id) ∧
    (base.artwork_url ≠ "" →
      (mergeMeta base incoming false).artwork_url = base.artwork_url) ∧
    (base.comment ≠ "" → (mergeMeta base incoming false).comment = base.comment) ∧
    (base.artwork_jpeg ≠ [] →
      (mergeMeta base incoming false).artwork_jpeg = base.artwork_jpeg) ∧
    (mergeMeta base incoming false).source = base.source := by
  refine ⟨?_, ?_, ?_, ?_, ?_, ?_, ?_, ?_, ?_, ?_, ?_, ?_, ?_, ?_, ?_, ?_⟩ <;>
    (try intro h) <;> simp [mergeMeta, mergeField, *]

/-- Witness for C1 (amended) at a record with a non-empty title. -/
theorem C1_amended_witness :
    (mergeMeta { title := "t" } {} false).title = "t" :=
  (C1_amended { title := "t" } {}).1 (by decide)

/-- Claim C3 (amended): for either value of `prefer_incoming`, `merge_meta`
never overwrites a non-empty base comment, but fills an empty base comment
from the incoming record. -/
theorem C3_amended (base incoming : TrackMeta) (pref : Bool) :
    (base.comment ≠ "" → (mergeMeta base incoming pref).comment = base.comment) ∧
    (base.comment = "" → (mergeMeta base incoming pref).comment = incoming.comment) := by
  constructor
  · intro h
    cases pref <;> simp [mergeMeta, mergeField, h]
  · intro h
    cases pref <;> by_cases hb : incoming.comment = "" <;>
      simp [mergeMeta, mergeField, h, hb]

/-- Witness for C3 (amended): an empty base comment is filled from incoming. -/
theorem C3_amended_witness :
    (mergeMeta {} { comment := "u" } false).comment = "u" :=
  (C3_amended {} { comment := "u" } false).2 rfl

/-! ## Lemmas for the sanitizer -/

theorem inv_not_ws (d : Char) (hd : isInvalidFsChar d = true) : pyIsSpace d = false := by
  unfold isInvalidFsChar at hd
  simp only [Bool.or_eq_true, decide_eq_true_eq] at hd
  rcases hd with ((((((((h|h)|h)|h)|h)|h)|h)|h)|h) <;> subst h <;> decide

theorem subInvalid_no_invalid (l : List Char) :
    ∀ (b : Bool), ∀ c ∈ subInvalidAux b l, isInvalidFsChar c = false := by
  induction l with
  | nil => intro b c hc; simp [subInvalidAux] at hc
  | cons d rest ih =>
    intro b c hc
    unfold subInvalidAux at hc
    by_cases hd : isInvalidFsChar d = true
    · rw [if_pos hd] at hc
      rcases List.mem_append.mp hc with h1 | h2
      · cases b
        · simp at h1
          subst h1
          decide
        · simp at h1
      · exact ih true c h2
    · rw [if_neg hd] at hc
      rcases List.mem_cons.mp hc with rfl | h2
      · simpa using hd
      · exact ih false c h2

theorem subInvalid_all_nil (l : List Char) (h : ∀ c ∈ l, isInvalidFsChar c = true) :
    subInvalidAux true l = [] := by
  induction l with
  | nil => rfl
  | cons c rest ih =>
    unfold subInvalidAux
    rw [if_pos (h c (List.mem_cons_self c rest))]
    simp [ih (fun d hd => h d (List.mem_cons_of_mem c hd))]

theorem collapse_chars (l : List Char) :
    ∀ (b : Bool), ∀ c ∈ collapseWsAux b l, (c ∈ l ∧ pyIsSpace c = false) ∨ c = ' ' := by
  induction l with
  | nil => intro b c hc; simp [collapseWsAux] at hc
  | cons d rest ih =>
    intro b c hc
    unfold collapseWsAux at hc
    by_cases hd : pyIsSpace d = true
    · rw [if_pos hd] at hc
      rcases List.mem_append.mp hc with h1 | h2
      · cases b
        · simp at h1
          exact Or.inr h1
        · simp at h1
      · rcases ih true c h2 with ⟨hm, hns⟩ | he
        · exact Or.inl ⟨List.mem_cons_of_mem _ hm, hns⟩
        · exact Or.inr he
    · rw [if_neg hd] at hc
      rcases List.mem_cons.mp hc with rfl | h2
      · exact Or.inl ⟨List.mem_cons_self _ _, by simpa using hd⟩
      · rcases ih false c h2 with ⟨hm, hns⟩ | he
        · exact Or.inl ⟨List.mem_cons_of_mem _ hm, hns⟩
        · exact Or.inr he

theorem stripBy_head_false (p : Char → Bool) (l : List Char) (c : Char) (cs : List Char)
    (h : stripBy p l = c :: cs) : p c = false := by
  unfold stripBy lstripBy at h
  have happ := rstripBy_append_eq p (l.dropWhile p)
  rw [h] at happ
  have hh : (l.dropWhile p).head? = some c := by
    rw [← happ]
    rfl
  exact dropWhile_head_false p l c hh

theorem stripBy_all_false (p : Char → Bool) (l : List Char) (h : ∀ c ∈ l, p c = false) :
    stripBy p l = l := by
  unfold stripBy lstripBy rstripBy
  have h1 : l.dropWhile p = l := by
    cases l with
    | nil => rfl
    | cons c rest => exact dropWhile_cons_false rest (h c (List.mem_cons_self c rest))
  rw [h1]
  cases hrev : l.reverse with
  | nil => simp [List.reverse_eq_nil_iff.mp hrev]
  | cons d ds =>
    have hd : d ∈ l := by
      have hmem : d ∈ l.reverse := by
        rw [hrev]
        exact List.mem_cons_self d ds
      exact List.mem_reverse.mp hmem
    rw [dropWhile_cons_false ds (h d hd), ← hrev, List.reverse_reverse]

theorem rstripBy_ne_nil (p : Char → Bool) (c : Char) (cs : List Char) (hc : p c = false) :
    rstripBy p (c :: cs) ≠ [] := by
  intro hnil
  rw [rstripBy_eq_nil_iff] at hnil
  have hcontra := hnil c (List.mem_cons_self c cs)
  rw [hc] at hcontra
  exact Bool.false_ne_true hcontra

theorem sfCore_chars_not_invalid (name : List Char) :
    ∀ c ∈ sfCore name, isInvalidFsChar c = false := by
  intro c hc
  unfold sfCore at hc
  have h1 : c ∈ collapseWs (subInvalidAux false (pyStrip name)) :=
    (pyStrip_sublist _).subset ((stripBy_sublist _ _).subset hc)
  rcases collapse_chars _ false c h1 with ⟨hm, _⟩ | rfl
  · exact subInvalid_no_invalid _ false c hm
  · decide

theorem sfCore_head_not_space (name : List Char) (c : Char) (cs : List Char)
    (h : sfCore name = c :: cs) : pyIsSpace c = false := by
  have hq : DOT_SPACE.contains c = false := by
    unfold sfCore at h
    simpa using stripBy_head_false _ _ _ _ h
  have hmem : c ∈ sfCore name := by
    rw [h]
    exact List.mem_cons_self c cs
  unfold sfCore at hmem
  have h1 : c ∈ collapseWs (subInvalidAux false (pyStrip name)) :=
    (pyStrip_sublist _).subset ((stripBy_sublist _ _).subset hmem)
  rcases collapse_chars _ false c h1 with ⟨_, hns⟩ | rfl
  · exact hns
  · exact absurd hq (by decide)

/-- Claim C10 (amended): `sanitize_filename` with the default limit 180 returns
a non-empty string of length at most 180 containing no filesystem-invalid
character; an empty input yields the fallback "audio", while an all-invalid
input yields "_" (the collapsed underscore survives the strips). -/
theorem C10_amended (name : List Char) :
    sanitizeFilename name 180 ≠ [] ∧
    (sanitizeFilename name 180).length ≤ 180 ∧
    (∀ c ∈ sanitizeFilename name 180, isInvalidFsChar c = false) ∧
    (name = [] → sanitizeFilename name 180 = "audio".data) ∧
    ((name ≠ [] ∧ ∀ c ∈ name, isInvalidFsChar c = true) →
      sanitizeFilename name 180 = "_".data) := by
  have hinv : (name ≠ [] ∧ ∀ c ∈ name, isInvalidFsChar c = true) →
      sanitizeFilename name 180 = "_".data := by
    rintro ⟨hne, hall⟩
    obtain ⟨c, rest, rfl⟩ : ∃ c rest, name = c :: rest := by
      cases name with
      | nil => exact absurd rfl hne
      | cons c rest => exact ⟨c, rest, rfl⟩
    have hps : pyStrip (c :: rest) = c :: rest :=
      stripBy_all_false pyIsSpace (c :: rest) (fun d hd => inv_not_ws d (hall d hd))
    have hsub : subInvalidAux false (c :: rest) = "_".data := by
      have htail : subInvalidAux true rest =
          [] := subInvalid_all_nil rest (fun d hd => hall d (List.mem_cons_of_mem c hd))
      unfold subInvalidAux
      rw [if_pos (hall c (List.mem_cons_self c rest))]
      simp [htail]
    have hcore : sfCore (c :: rest) = "_".data := by
      unfold sfCore
      rw [hps, hsub]
      decide
    unfold sanitizeFilename
    rw [hcore]
    decide
  by_cases hS : (sfCore name).isEmpty = true
  · have he : sanitizeFilename name 180 = "audio".data := by
      unfold sanitizeFilename
      show (if (if (sfCore name).isEmpty = true then "audio".data else sfCore name).length > 180
          then pyRstrip ((if (sfCore name).isEmpty = true then "audio".data
            else sfCore name).take 180)
          else (if (sfCore name).isEmpty = true then "audio".data else sfCore name)) =
        "audio".data
      rw [if_pos hS]
      decide
    refine ⟨?_, ?_, ?_, fun _ => he, hinv⟩
    · rw [he]; decide
    · rw [he]; decide
    · rw [he]; decide
  · obtain ⟨c, cs, hS2⟩ : ∃ c cs, sfCore name = c :: cs := by
      cases hsf : sfCore name with
      | nil => rw [hsf] at hS; simp at hS
      | cons c cs => exact ⟨c, cs, rfl⟩
    have hc_ns : pyIsSpace c = false := sfCore_head_not_space name c cs hS2
    have hsan : sanitizeFilename name 180 =
        if (sfCore name).length > 180 then pyRstrip ((sfCore name).take 180)
        else sfCore name := by
      unfold sanitizeFilename
      show (if (if (sfCore name).isEmpty = true then "audio".data else sfCore name).length > 180
          then pyRstrip ((if (sfCore name).isEmpty = true then "audio".data
            else sfCore name).take 180)
          else (if (sfCore name).isEmpty = true then "audio".data else sfCore name)) = _
      rw [if_neg hS]
    have hempty : name = [] → sanitizeFilename name 180 = "audio".data := by
      intro hnil
      subst hnil
      exact absurd (by decide) hS
    have hnoinv : ∀ c2 ∈ sanitizeFilename name 180, isInvalidFsChar c2 = false := by
      intro c2 hc2
      rw [hsan] at hc2
      apply sfCore_chars_not_invalid name
      by_cases hlen : (sfCore name).length > 180
      · rw [if_pos hlen] at hc2
        exact (pyRstrip_take_sublist _ _).subset hc2
      · rw [if_neg hlen] at hc2
        exact hc2
    refine ⟨?_, ?_, hnoinv, hempty, hinv⟩
    · rw [hsan]
      by_cases hlen : (sfCore name).length > 180
      · rw [if_pos hlen, hS2]
        rw [show (180 : Nat) = 179 + 1 from rfl, List.take_succ_cons]
        exact rstripBy_ne_nil pyIsSpace c (cs.take 179) hc_ns
      · rw [if_neg hlen, hS2]
        simp
    · rw [hsan]
      by_cases hlen : (sfCore name).length > 180
      · rw [if_pos hlen]
        exact (rstripBy_sublist _ _).length_le.trans (List.length_take_le 180 _)
      · rw [if_neg hlen]
        exact Nat.le_of_not_lt hlen

/-- Witness for C10 (amended) at an all-invalid input. -/
theorem C10_amended_witness : sanitizeFilename "**".data 180 = "_".data :=
  (C10_amended "**".data).2.2.2.2 ⟨by decide, by decide⟩

/-- Claim C7 (amended): whenever the normalized wanted title is non-empty, the
similarity penalty term of the candidate score is −8 exactly when the title
similarity is below 0.20, −3 exactly when it is in [0.20, 0.35), and 0 exactly
when it is at least 0.35 (with an empty normalized wanted title no penalty is
ever applied). -/
theorem C7_amended (want_title trackName : String) (h : norm want_title.data ≠ []) :
    (titleSimPenalty want_title trackName = -8 ↔
      tokenJaccard want_title.data trackName.data < 1/5) ∧
    (titleSimPenalty want_title trackName = -3 ↔
      (1/5 ≤ tokenJaccard want_title.data trackName.data ∧
        tokenJaccard want_title.data trackName.data < 7/20)) ∧
    (titleSimPenalty want_title trackName = 0 ↔
      7/20 ≤ tokenJaccard want_title.data trackName.data) := by
  have hpen : titleSimPenalty want_title trackName =
      if tokenJaccard want_title.data trackName.data < 1/5 then -8
      else if tokenJaccard want_title.data trackName.data < 7/20 then -3 else 0 := by
    unfold titleSimPenalty
    show (if tokenJaccard want_title.data trackName.data < 1/5 ∧ norm want_title.data ≠ []
        then (-8 : Int)
        else if tokenJaccard want_title.data trackName.data < 7/20 ∧ norm want_title.data ≠ []
        then -3 else 0) = _
    simp [h]
  rw [hpen]
  by_cases h1 : tokenJaccard want_title.data trackName.data < 1/5
  · rw [if_pos h1]
    exact ⟨⟨fun _ => h1, fun _ => rfl⟩,
      ⟨fun he => absurd he (by norm_num), fun hc => absurd h1 (not_lt.mpr hc.1)⟩,
      ⟨fun he => absurd he (by norm_num),
        fun hc => absurd h1 (not_lt.mpr (le_trans (by norm_num) hc))⟩⟩
  · rw [if_neg h1]
    have hge : 1/5 ≤ tokenJaccard want_title.data trackName.data := not_lt.mp h1
    by_cases h2 : tokenJaccard want_title.data trackName.data < 7/20
    · rw [if_pos h2]
      exact ⟨⟨fun he => absurd he (by norm_num), fun hc => absurd hc (not_lt.mpr hge)⟩,
        ⟨fun _ => ⟨hge, h2⟩, fun _ => rfl⟩,
        ⟨fun he => absurd he (by norm_num), fun hc => absurd h2 (not_lt.mpr hc)⟩⟩
    · rw [if_neg h2]
      have hge2 : 7/20 ≤ tokenJaccard want_title.data trackName.data := not_lt.mp h2
      exact ⟨⟨fun he => absurd he (by norm_num),
          fun hc => absurd hc (not_lt.mpr (le_trans (by norm_num) hge2))⟩,
        ⟨fun he => absurd he (by norm_num), fun hc => absurd hc.2 (not_lt.mpr hge2)⟩,
        ⟨fun _ => hge2, fun _ => rfl⟩⟩

/-- Witness for C7 (amended): non-empty wanted title, dissimilar candidate,
penalty −8. -/
theorem C7_amended_witness : titleSimPenalty "hello" "" = -8 := by
  have h := C7_amended "hello" "" (by decide)
  exact h.1.mpr (by rw [show tokenJaccard "hello".data "".data = 0 from rfl]; norm_num)

/-- Claim C4 (amended): `meta_match` coincides with the claim's description
once the recording-code comparison is read as identical up to letter case and
surrounding whitespace: match whenever both records carry such ISRCs or both
carry an identical non-empty catalog identifier, else exactly when title
similarity ≥ 0.62 and artist similarity ≥ 0.55 (taken as 0.6 when either
artist field is empty). -/
theorem C4_amended (a b : TrackMeta) : metaMatch a b = specMatchesC4Amended a b := by
  unfold metaMatch specMatchesC4Amended upperStripS
  by_cases h1 : a.isrc ≠ "" ∧ b.isrc ≠ "" ∧
      toUpperL (pyStrip a.isrc.data) = toUpperL (pyStrip b.isrc.data)
  · rw [if_pos h1, if_pos (Or.inl h1)]
  · by_cases h2 : a.itunes_track_id ≠ "" ∧ b.itunes_track_id ≠ "" ∧
        a.itunes_track_id = b.itunes_track_id
    · rw [if_neg h1, if_pos h2, if_pos (Or.inr h2)]
    · rw [if_neg h1, if_neg h2, if_neg (not_or.mpr ⟨h1, h2⟩)]
      by_cases ha : a.artist = ""
      · simp [ha]
      · by_cases hb : b.artist = ""
        · simp [ha, hb]
        · simp [ha, hb]

/-! ## Lemmas for the marketing stripper -/

theorem bracketStep_sublist {s s2 : List Char} (h : bracketStep s = some s2) :
    List.Sublist s2 s := by
  unfold bracketStep at h
  split at h
  · split at h
    · exact absurd h (by simp)
    · split at h
      · exact absurd h (by simp)
      · split at h
        · injection h with h2
          subst h2
          exact pyRstrip_take_sublist s _
        · exact absurd h (by simp)
  · exact absurd h (by simp)

theorem bracketLoop_sublist : ∀ (fuel : Nat) (s : List Char),
    List.Sublist (bracketLoop fuel s) s := by
  intro fuel
  induction fuel with
  | zero => intro s; exact List.Sublist.refl s
  | succ n ih =>
    intro s
    unfold bracketLoop
    cases hb : bracketStep s with
    | none => exact List.Sublist.refl s
    | some s2 => exact (ih s2).trans (bracketStep_sublist hb)

theorem sepTry_sublist (s lowered : List Char) :
    ∀ seps : List (List Char), List.Sublist (sepTry s lowered seps) s := by
  intro seps
  induction seps with
  | nil => exact List.Sublist.refl s
  | cons sep rest ih =>
    unfold sepTry
    cases hf : rfindSub sep lowered with
    | none => exact ih
    | some idx =>
      dsimp only
      by_cases hm : segmentIsMarketing (pyStrip (s.drop (idx + sep.length))) = true
      · rw [if_pos hm]
        exact pyRstrip_take_sublist s idx
      · rw [if_neg hm]
        exact ih

theorem phrasePass_sublist {s : List Char} :
    ∀ {ps : List (List Char)} {s2 : List Char}, phrasePass s ps = some s2 →
      List.Sublist s2 s := by
  intro ps
  induction ps with
  | nil => intro s2 h; exact absurd h (by simp [phrasePass])
  | cons p rest ih =>
    intro s2 h
    unfold phrasePass at h
    split at h
    · split at h
      · injection h with h2
        subst h2
        exact pyRstrip_take_sublist s _
      · split at h
        · split at h
          · injection h with h2
            subst h2
            exact pyRstrip_take_sublist s _
          · exact ih h
        · exact ih h
    · exact ih h

theorem phraseLoop_sublist : ∀ (fuel : Nat) (s : List Char),
    List.Sublist (phraseLoop fuel s) s := by
  intro fuel
  induction fuel with
  | zero => intro s; exact List.Sublist.refl s
  | succ n ih =>
    intro s
    unfold phraseLoop
    cases hb : phrasePass s MARKETING_BAD_WORDS_SORTED with
    | none => exact List.Sublist.refl s
    | some s2 => exact (ih s2).trans (phrasePass_sublist hb)

theorem stripTrailingMarketing_sublist (x : List Char) :
    List.Sublist (stripTrailingMarketing x) x := by
  have heq : stripTrailingMarketing x =
      if (pyStrip x).isEmpty then pyStrip x
      else pyStrip (rstripBy isTrailingJunk (phraseLoop
        ((sepStage (bracketLoop ((pyStrip x).length + 1) (pyStrip x))).length + 1)
        (sepStage (bracketLoop ((pyStrip x).length + 1) (pyStrip x))))) := rfl
  rw [heq]
  by_cases h : (pyStrip x).isEmpty = true
  · rw [if_pos h]
    exact pyStrip_sublist x
  · rw [if_neg h]
    have c1 : List.Sublist (bracketLoop ((pyStrip x).length + 1) (pyStrip x)) (pyStrip x) :=
      bracketLoop_sublist _ _
    have c2 : List.Sublist (sepStage (bracketLoop ((pyStrip x).length + 1) (pyStrip x)))
        (bracketLoop ((pyStrip x).length + 1) (pyStrip x)) := by
      unfold sepStage
      exact sepTry_sublist _ _ SEPS
    have c3 := phraseLoop_sublist
      ((sepStage (bracketLoop ((pyStrip x).length + 1) (pyStrip x))).length + 1)
      (sepStage (bracketLoop ((pyStrip x).length + 1) (pyStrip x)))
    have c4 := rstripBy_sublist isTrailingJunk (phraseLoop
      ((sepStage (bracketLoop ((pyStrip x).length + 1) (pyStrip x))).length + 1)
      (sepStage (bracketLoop ((pyStrip x).length + 1) (pyStrip x))))
    have c5 := pyStrip_sublist (rstripBy isTrailingJunk (phraseLoop
      ((sepStage (bracketLoop ((pyStrip x).length + 1) (pyStrip x))).length + 1)
      (sepStage (bracketLoop ((pyStrip x).length + 1) (pyStrip x)))))
    exact ((((c5.trans c4).trans c3).trans c2).trans c1).trans (pyStrip_sublist x)

/-- Claim C2 (amended): `_strip_trailing_marketing` is not idempotent, but each
application only deletes characters — the output is a subsequence of the
input, and strictly shorter whenever it differs — so repeated application
reaches a fixed point after at most `|x|` applications. -/
theorem C2_amended (x : List Char) :
    List.Sublist (stripTrailingMarketing x) x ∧
    (stripTrailingMarketing x = x ∨ (stripTrailingMarketing x).length < x.length) := by
  refine ⟨stripTrailingMarketing_sublist x, ?_⟩
  rcases Nat.eq_or_lt_of_le (stripTrailingMarketing_sublist x).length_le with heq | hlt
  · exact Or.inl ((stripTrailingMarketing_sublist x).eq_of_length heq)
  · exact Or.inr hlt

/-! ## Lemmas for the fingerprint voter -/

theorem countKey_cons (p : String × Bool) (rs : List (String × Bool)) (k : String) :
    countKey (p :: rs) k = (if p.1 = k then 1 else 0) + countKey rs k := rfl

theorem firstFlagB_cons (p : String × Bool) (rs : List (String × Bool)) (k : String) :
    firstFlagB (p :: rs) k = if p.1 = k then p.2 else firstFlagB rs k := rfl

theorem countKey_pos_exists (rs : List (String × Bool)) (k : String)
    (h : 0 < countKey rs k) : ∃ p ∈ rs, p.1 = k := by
  induction rs with
  | nil => simp [countKey] at h
  | cons p rest ih =>
    rw [countKey_cons] at h
    by_cases hp : p.1 = k
    · exact ⟨p, List.mem_cons_self _ _, hp⟩
    · rw [if_neg hp] at h
      simp at h
      obtain ⟨q, hq, hqk⟩ := ih h
      exact ⟨q, List.mem_cons_of_mem _ hq, hqk⟩

theorem insertVote_entry_eq (acc : List (String × Nat × Bool)) (k : String) (i : Bool) :
    tallyEntry (insertVote acc k i) k =
      some (match tallyEntry acc k with
            | some cf => (cf.1 + 1, cf.2)
            | none => (1, i)) := by
  induction acc with
  | nil => simp [insertVote, tallyEntry]
  | cons e rest ih =>
    obtain ⟨k2, c, f⟩ := e
    by_cases he : k2 = k
    · subst he
      simp [insertVote, tallyEntry]
    · simp [insertVote, tallyEntry, he, ih]

theorem insertVote_entry_ne (acc : List (String × Nat × Bool)) (k : String) (i : Bool)
    (k2 : String) (hne : k2 ≠ k) :
    tallyEntry (insertVote acc k i) k2 = tallyEntry acc k2 := by
  induction acc with
  | nil => simp [insertVote, tallyEntry, Ne.symm hne]
  | cons e rest ih =>
    obtain ⟨k3, c, f⟩ := e
    by_cases he : k3 = k
    · subst he
      simp [insertVote, tallyEntry, Ne.symm hne]
    · by_cases he2 : k3 = k2 <;> simp [insertVote, tallyEntry, he, he2, hne, ih]

theorem insertVote_keys (acc : List (String × Nat × Bool)) (k : String) (i : Bool) :
    tkeys (insertVote acc k i) = tkeys acc ∨
      tkeys (insertVote acc k i) = tkeys acc ++ [k] := by
  induction acc with
  | nil => right; rfl
  | cons e rest ih =>
    obtain ⟨k2, c, f⟩ := e
    by_cases he : k2 = k
    · left
      subst he
      simp [insertVote, tkeys]
    · rcases ih with hk | hk
      · left
        simp [insertVote, he, tkeys] at hk ⊢
        exact hk
      · right
        simp [insertVote, he, tkeys] at hk ⊢
        exact hk

theorem tkeys_cons (e : String × Nat × Bool) (t : List (String × Nat × Bool)) :
    tkeys (e :: t) = e.1 :: tkeys t := rfl

theorem insertVote_keys_nodup (acc : List (String × Nat × Bool)) (k : String) (i : Bool)
    (h : (tkeys acc).Nodup) : (tkeys (insertVote acc k i)).Nodup := by
  induction acc with
  | nil => simp [insertVote, tkeys]
  | cons e rest ih =>
    obtain ⟨k2, c, f⟩ := e
    have hcons : (k2 :: tkeys rest).Nodup := h
    have h1 : k2 ∉ tkeys rest := (List.nodup_cons.mp hcons).1
    have h2 : (tkeys rest).Nodup := (List.nodup_cons.mp hcons).2
    by_cases he : k2 = k
    · subst he
      have hred : insertVote ((k2, c, f) :: rest) k2 i = (k2, c + 1, f) :: rest := by
        simp [insertVote]
      rw [hred, tkeys_cons]
      exact hcons
    · have hni : k2 ∉ tkeys (insertVote rest k i) := by
        rcases insertVote_keys rest k i with hk | hk <;> rw [hk]
        · exact h1
        · intro hmem
          rcases List.mem_append.mp hmem with hm | hm
          · exact h1 hm
          · simp at hm
            exact he hm
      have hred : insertVote ((k2, c, f) :: rest) k i = (k2, c, f) :: insertVote rest k i := by
        simp [insertVote, he]
      rw [hred, tkeys_cons]
      exact List.nodup_cons.mpr ⟨hni, ih h2⟩

theorem mem_tallyEntry (t : List (String × Nat × Bool)) (h : (tkeys t).Nodup) :
    ∀ e ∈ t, tallyEntry t e.1 = some e.2 := by
  induction t with
  | nil => intro e he; simp at he
  | cons e2 rest ih =>
    intro e he
    rcases List.mem_cons.mp he with rfl | hr
    · simp [tallyEntry]
    · have hcons : (e2.1 :: tkeys rest).Nodup := h
      have hne : e2.1 ≠ e.1 := by
        intro hq
        have hmem : e.1 ∈ tkeys rest := List.mem_map_of_mem (fun x => x.1) hr
        have hnot := (List.nodup_cons.mp hcons).1
        rw [hq] at hnot
        exact hnot hmem
      simp [tallyEntry, hne]
      exact ih (List.nodup_cons.mp hcons).2 e hr

theorem tallyEntry_mem (t : List (String × Nat × Bool)) (k : String) (cf : Nat × Bool)
    (h : tallyEntry t k = some cf) : (k, cf) ∈ t := by
  induction t with
  | nil => simp [tallyEntry] at h
  | cons e rest ih =>
    obtain ⟨k2, c, f⟩ := e
    unfold tallyEntry at h
    by_cases he : k2 = k
    · rw [if_pos (by simpa using he)] at h
      injection h with h2
      subst he
      rw [← h2]
      exact List.mem_cons_self _ _
    · rw [if_neg (by simpa using he)] at h
      exact List.mem_cons_of_mem _ (ih h)

theorem tallyFold_entry (rs : List (String × Bool)) :
    ∀ (acc : List (String × Nat × Bool)) (k : String),
      tallyEntry (tallyFold acc rs) k =
        if (pyStrip k.data).isEmpty = true then tallyEntry acc k
        else
          match tallyEntry acc k with
          | some cf => some (cf.1 + countKey rs k, cf.2)
          | none =>
            if 0 < countKey rs k then some (countKey rs k, firstFlagB rs k) else none := by
  induction rs with
  | nil =>
    intro acc k
    by_cases hs : (pyStrip k.data).isEmpty = true
    · rw [if_pos hs]
      rfl
    · rw [if_neg hs]
      cases h : tallyEntry acc k <;> simp [tallyFold, countKey, h]
  | cons p rest ih =>
    intro acc k
    have hfold : tallyFold acc (p :: rest) =
        tallyFold (if (pyStrip p.1.data).isEmpty = true then acc
          else insertVote acc p.1 p.2) rest := rfl
    rw [hfold, ih]
    by_cases hp : (pyStrip p.1.data).isEmpty = true
    · rw [if_pos hp]
      by_cases hs : (pyStrip k.data).isEmpty = true
      · rw [if_pos hs, if_pos hs]
      · have hpk : p.1 ≠ k := by
          intro hq
          rw [hq] at hp
          exact hs hp
        rw [if_neg hs, if_neg hs, countKey_cons, firstFlagB_cons, if_neg hpk, if_neg hpk]
        simp
    · rw [if_neg hp]
      by_cases hs : (pyStrip k.data).isEmpty = true
      · have hpk : k ≠ p.1 := by
          intro hq
          rw [hq] at hs
          exact hp hs
        rw [if_pos hs, if_pos hs]
        exact insertVote_entry_ne acc p.1 p.2 k hpk
      · rw [if_neg hs, if_neg hs]
        by_cases hpk : p.1 = k
        · subst hpk
          rw [insertVote_entry_eq, countKey_cons, firstFlagB_cons, if_pos rfl, if_pos rfl]
          cases h : tallyEntry acc p.1 with
          | some cf =>
            simp [h]
            omega
          | none => simp [h]
        · rw [insertVote_entry_ne acc p.1 p.2 k (Ne.symm hpk), countKey_cons, firstFlagB_cons,
            if_neg hpk, if_neg hpk]
          simp

theorem tallyVotes_entry (rs : List (String × Bool)) (k : String) :
    tallyEntry (tallyVotes rs) k =
      if (pyStrip k.data).isEmpty = true then none
      else if 0 < countKey rs k then some (countKey rs k, firstFlagB rs k) else none := by
  unfold tallyVotes
  rw [tallyFold_entry rs [] k]
  by_cases hs : (pyStrip k.data).isEmpty = true
  · rw [if_pos hs, if_pos hs]
    rfl
  · rw [if_neg hs, if_neg hs]
    rfl

theorem tallyVotes_keys_nodup (rs : List (String × Bool)) :
    (tkeys (tallyVotes rs)).Nodup := by
  unfold tallyVotes
  have hgen : ∀ (l : List (String × Bool)) (acc : List (String × Nat × Bool)),
      (tkeys acc).Nodup → (tkeys (tallyFold acc l)).Nodup := by
    intro l
    induction l with
    | nil => intro acc h; exact h
    | cons p rest ih =>
      intro acc h
      have hfold : tallyFold acc (p :: rest) =
          tallyFold (if (pyStrip p.1.data).isEmpty = true then acc
            else insertVote acc p.1 p.2) rest := rfl
      rw [hfold]
      apply ih
      by_cases hp : (pyStrip p.1.data).isEmpty = true
      · rw [if_pos hp]
        exact h
      · rw [if_neg hp]
        exact insertVote_keys_nodup acc p.1 p.2 h
  exact hgen rs [] (by simp [tkeys])

theorem voteBetter_irrefl (a : String × Nat × Bool) : voteBetter a a = false := by
  obtain ⟨k, c, f⟩ := a
  cases f <;> simp [voteBetter]

theorem voteBetter_asymm {a b : String × Nat × Bool} (h : voteBetter a b = true) :
    voteBetter b a = false := by
  obtain ⟨ka, ca, fa⟩ := a
  obtain ⟨kb, cb, fb⟩ := b
  cases fa <;> cases fb <;> simp_all [voteBetter] <;> omega

theorem voteBetter_neg_trans {a b c : String × Nat × Bool}
    (hab : voteBetter a b = false) (hbc : voteBetter b c = false) :
    voteBetter a c = false := by
  obtain ⟨ka, ca, fa⟩ := a
  obtain ⟨kb, cb, fb⟩ := b
  obtain ⟨kc, cc, fc⟩ := c
  cases fa <;> cases fb <;> cases fc <;> simp_all [voteBetter] <;> omega

theorem pickBest_mem (e : String × Nat × Bool) (es : List (String × Nat × Bool)) :
    pickBest e es ∈ e :: es := by
  induction es generalizing e with
  | nil => simp [pickBest]
  | cons y ys ih =>
    have hstep : pickBest e (y :: ys) = pickBest (if voteBetter y e then y else e) ys := rfl
    rw [hstep]
    rcases List.mem_cons.mp (ih (if voteBetter y e then y else e)) with heq | hmem
    · by_cases hv : voteBetter y e = true
      · rw [if_pos hv] at heq ⊢
        rw [heq]
        exact List.mem_cons_of_mem _ (List.mem_cons_self _ _)
      · rw [if_neg hv] at heq ⊢
        rw [heq]
        exact List.mem_cons_self _ _
    · exact List.mem_cons_of_mem _ (List.mem_cons_of_mem _ hmem)

theorem pickBest_supreme (e : String × Nat × Bool) (es : List (String × Nat × Bool)) :
    ∀ x ∈ e :: es, voteBetter x (pickBest e es) = false := by
  induction es generalizing e with
  | nil =>
    intro x hx
    rcases List.mem_cons.mp hx with rfl | hx2
    · exact voteBetter_irrefl x
    · simp at hx2
  | cons y ys ih =>
    intro x hx
    have hstep : pickBest e (y :: ys) = pickBest (if voteBetter y e then y else e) ys := rfl
    rw [hstep]
    rcases List.mem_cons.mp hx with rfl | hx2
    · by_cases hv : voteBetter y x = true
      · rw [if_pos hv]
        exact voteBetter_neg_trans (voteBetter_asymm hv) (ih y y (List.mem_cons_self _ _))
      · rw [if_neg hv]
        exact ih x x (List.mem_cons_self _ _)
    · rcases List.mem_cons.mp hx2 with rfl | hx3
      · by_cases hv : voteBetter x e = true
        · rw [if_pos hv]
          exact ih x x (List.mem_cons_self _ _)
        · rw [if_neg hv]
          exact voteBetter_neg_trans (by simpa using hv) (ih e e (List.mem_cons_self _ _))
      · by_cases hv : voteBetter y e = true
        · rw [if_pos hv]
          exact ih y x (List.mem_cons_of_mem _ hx3)
        · rw [if_neg hv]
          exact ih e x (List.mem_cons_of_mem _ hx3)

theorem shazamWinner_eq (rs : List (String × Bool)) (e : String × Nat × Bool)
    (es : List (String × Nat × Bool)) (h : tallyVotes rs = e :: es) :
    shazamWinner rs = some (pickBest e es).1 := by
  unfold shazamWinner
  rw [h]
  rfl

theorem shazamWinner_argmax (rs : List (String × Bool)) (k : String)
    (hs : (pyStrip k.data).isEmpty = false)
    (hc : 0 < countKey rs k)
    (hdom : ∀ k2, (∃ p ∈ rs, p.1 = k2) → k2 ≠ k →
      voteBetter (k, countKey rs k, firstFlagB rs k)
        (k2, countKey rs k2, firstFlagB rs k2) = true) :
    shazamWinner rs = some k := by
  have hsneg : ¬((pyStrip k.data).isEmpty = true) := by
    rw [hs]
    simp
  have hek : tallyEntry (tallyVotes rs) k = some (countKey rs k, firstFlagB rs k) := by
    rw [tallyVotes_entry, if_neg hsneg, if_pos hc]
  have hkmem : (k, countKey rs k, firstFlagB rs k) ∈ tallyVotes rs :=
    tallyEntry_mem _ _ _ hek
  cases ht : tallyVotes rs with
  | nil =>
    rw [ht] at hkmem
    simp at hkmem
  | cons e es =>
    rw [shazamWinner_eq rs e es ht]
    have hrmem : pickBest e es ∈ tallyVotes rs := by
      rw [ht]
      exact pickBest_mem e es
    have hrentry : tallyEntry (tallyVotes rs) (pickBest e es).1 = some (pickBest e es).2 :=
      mem_tallyEntry _ (tallyVotes_keys_nodup rs) _ hrmem
    rw [tallyVotes_entry] at hrentry
    by_cases hrs : (pyStrip (pickBest e es).1.data).isEmpty = true
    · rw [if_pos hrs] at hrentry
      exact absurd hrentry (by simp)
    · rw [if_neg hrs] at hrentry
      by_cases hrc : 0 < countKey rs (pickBest e es).1
      · rw [if_pos hrc] at hrentry
        by_cases hrk : (pickBest e es).1 = k
        · rw [hrk]
        · exfalso
          have hocc : ∃ p ∈ rs, p.1 = (pickBest e es).1 := countKey_pos_exists rs _ hrc
          have hbeat := hdom (pickBest e es).1 hocc hrk
          have hr2 : pickBest e es =
              ((pickBest e es).1, countKey rs (pickBest e es).1,
                firstFlagB rs (pickBest e es).1) := by
            injection hrentry with h2
            rw [h2]
          rw [← hr2] at hbeat
          have hsup := pickBest_supreme e es (k, countKey rs k, firstFlagB rs k)
            (by rw [ht] at hkmem; exact hkmem)
          exact absurd (hbeat.symm.trans hsup) (by decide)
      · rw [if_neg hrc] at hrentry
        exact absurd hrentry (by simp)

/-- Claim C5: (1) a key with strictly more votes than every other key wins the
fingerprint vote, whatever order the slice results arrive in; (2) when two
keys split all the votes equally, the key whose first captured track carries a
non-empty ISRC wins. -/
theorem C5_voting :
    (∀ (rs : List (String × Bool)) (k : String),
        (pyStrip k.data).isEmpty = false →
        0 < countKey rs k →
        (∀ p ∈ rs, p.1 ≠ k → countKey rs p.1 < countKey rs k) →
        shazamWinner rs = some k) ∧
    (∀ (rs : List (String × Bool)) (k k2 : String),
        (pyStrip k.data).isEmpty = false →
        0 < countKey rs k →
        countKey rs k2 = countKey rs k →
        firstFlagB rs k = true →
        firstFlagB rs k2 = false →
        (∀ p ∈ rs, p.1 = k ∨ p.1 = k2) →
        shazamWinner rs = some k) := by
  constructor
  · intro rs k hs hc hmaj
    apply shazamWinner_argmax rs k hs hc
    intro k2 hocc hne
    obtain ⟨p, hp, hpk⟩ := hocc
    have hlt : countKey rs k2 < countKey rs k := by
      have hm := hmaj p hp (by rw [hpk]; exact hne)
      rw [hpk] at hm
      exact hm
    simp [voteBetter, hlt]
  · intro rs k k2 hs hc hceq hfk hfk2 hall
    apply shazamWinner_argmax rs k hs hc
    intro k3 hocc hne
    obtain ⟨p, hp, hpk⟩ := hocc
    rcases hall p hp with h1 | h1
    · exact absurd (hpk.symm.trans h1) hne
    · have hk3 : k3 = k2 := hpk.symm.trans h1
      subst hk3
      rw [hceq, hfk, hfk2]
      simp [voteBetter]

/-- Witness for C5: a 2-of-3 majority wins, and on a 1-1 tie the key whose
track carries an ISRC wins even when it arrived second. -/
theorem C5_voting_witness :
    shazamWinner [("a", false), ("b", false), ("a", false)] = some "a" ∧
    shazamWinner [("b", false), ("a", true)] = some "a" := by
  constructor
  · exact C5_voting.1 [("a", false), ("b", false), ("a", false)] "a" (by decide) (by decide)
      (by decide)
  · exact C5_voting.2 [("b", false), ("a", true)] "a" "b" (by decide) (by decide) (by decide)
      (by decide) (by decide) (by decide)
